import Mathlib

/-!
Verification development for the `aw-workers` worker-pool library.

The TypeScript sources are shallowly embedded below:
* `getWorkersCount` / `setupWorkerMaxCount` — `worker.utils.ts` and
  `WorkerPool.setup` ceiling computation (JS numbers with `NaN` are
  modelled by `JSNum`);
* `WorkerMessage` with `toJson` / `create` — `worker-message.ts`;
* `WorkerUnit` with `workerStep` — `worker.ts` (`resolve`/`reject`/
  `progress`; the posted envelopes and the JS return value are made
  explicit outputs);
* `PoolState` with `getWorker` / `releaseWorker` — `worker-pool.ts`
  (the JS `Map` is an insertion-ordered association list, exactly the
  observable behaviour of `Map.get`/`Map.set`/`Map.delete`);
* `DefaultWorkerLoader.load` — `worker-loader.ts` (the filesystem and
  the module system appear as an explicit environment).
-/

namespace AwWorkers

/-! ## JS numbers (only what the ceiling computation needs) -/

/-- A JS number: either `NaN` or an integer.  The worker-count
configuration only ever meets integers or `NaN`, so fractional values
are not modelled. -/
inductive JSNum where
  | nan : JSNum
  | num : Int → JSNum
deriving DecidableEq, Repr

/-- JS `isNaN`. -/
def JSNum.isNaN : JSNum → Bool
  | .nan => true
  | .num _ => false

/-- JS `>`: any comparison with `NaN` is `false`. -/
def JSNum.gt : JSNum → JSNum → Bool
  | .nan, _ => false
  | _, .nan => false
  | .num a, .num b => decide (b < a)

/-- JS subtraction: `NaN` is absorbing. -/
def JSNum.sub : JSNum → JSNum → JSNum
  | .nan, _ => .nan
  | _, .nan => .nan
  | .num a, .num b => .num (a - b)

/-- `getWorkersCount` from `worker.utils.ts`:
`threadsCount === 0 || isNaN(threadsCount)` selects
`os.cpus().length - inviolableThreadsCount`, otherwise `threadsCount`
is returned.  The CPU count is a parameter. -/
def getWorkersCount (cpus : Nat) (threadsCount inviolableThreadsCount : JSNum) : JSNum :=
  if threadsCount = .num 0 || threadsCount.isNaN then
    JSNum.sub (.num (cpus : Int)) inviolableThreadsCount
  else
    threadsCount

/-- The ceiling computation of `WorkerPool.setup` (`worker-pool.ts`):
`workerMaxCount = threadsCount > inviolableThreadsCount ?
getWorkersCount(threadsCount, inviolableThreadsCount) : threadsCount`. -/
def setupWorkerMaxCount (cpus : Nat) (threadsCount inviolableThreadsCount : JSNum) : JSNum :=
  if threadsCount.gt inviolableThreadsCount then
    getWorkersCount cpus threadsCount inviolableThreadsCount
  else
    threadsCount

/-! ## JSON-ish values and the message envelope (`worker-message.ts`) -/

/-- The values a message can carry across the thread boundary.  The
claims never inspect payload structure, so a flat value type
suffices; `null` is distinct from an absent (`undefined`) field, which
is `Option.none` at the use sites. -/
inductive JValue where
  | null : JValue
  | bool : Bool → JValue
  | num : Int → JValue
  | str : String → JValue
deriving DecidableEq, Repr

/-- `ErrorJson`: `{name?, message?, stack?, [key: string]: unknown}`.
Absent keys are `none`; the index-signature keys live in `rest`. -/
structure ErrorJson where
  name : Option String
  message : Option String
  stack : Option String
  rest : List (String × JValue)
deriving DecidableEq, Repr

/-- The empty JS object `{}` read as an `ErrorJson`. -/
def emptyErrorJson : ErrorJson := ⟨none, none, none, []⟩

namespace WorkerMessageType

def Error : String := "error"

def Info : String := "info"

def System : String := "system"

end WorkerMessageType

namespace WorkerMessageName

def Setup : String := "setup"

def TaskResolved : String := "task_resolved"

def TaskRejected : String := "task_rejected"

def TaskProgress : String := "task_progress"

end WorkerMessageName

/-- A `WorkerMessage` instance: `(workerId, type, name, data?, error?)`. -/
structure WorkerMessage where
  workerId : Nat
  type : String
  name : String
  data : Option JValue
  error : Option ErrorJson
deriving DecidableEq, Repr

/-- `WorkerMessage.setup(workerId)`. -/
def WorkerMessage.mkSetup (workerId : Nat) : WorkerMessage :=
  ⟨workerId, WorkerMessageType.System, WorkerMessageName.Setup, none, none⟩

/-- `WorkerMessage.taskResolved(workerId, value)`. -/
def WorkerMessage.taskResolved (workerId : Nat) (value : Option JValue) : WorkerMessage :=
  ⟨workerId, WorkerMessageType.Info, WorkerMessageName.TaskResolved, value, none⟩

/-- `WorkerMessage.taskRejected(workerId, error)`: `data` is the JS
literal `null`, the error is cast to `ErrorJson`. -/
def WorkerMessage.taskRejected (workerId : Nat) (error : Option ErrorJson) : WorkerMessage :=
  ⟨workerId, WorkerMessageType.Error, WorkerMessageName.TaskRejected, some .null, error⟩

/-- `WorkerMessage.taskProgress(workerId, value)`. -/
def WorkerMessage.taskProgress (workerId : Nat) (value : Option JValue) : WorkerMessage :=
  ⟨workerId, WorkerMessageType.Info, WorkerMessageName.TaskProgress, value, none⟩

/-- The flat record produced by `WorkerMessage.toJson`: the `error`
field is always present as an object (never `undefined`). -/
structure MessageJson where
  workerId : Nat
  type : String
  name : String
  data : Option JValue
  error : ErrorJson
deriving DecidableEq, Repr

/-- `WorkerMessage.prototype.toJson`: `errorJson` starts as `{}` and is
rebuilt from the fields `message`/`stack`/`name` of the error and remaining keys
when an error is present. -/
def WorkerMessage.toJson (m : WorkerMessage) : MessageJson :=
  let errorJson : ErrorJson :=
    match m.error with
    | some e => ⟨e.name, e.message, e.stack, e.rest⟩
    | none => emptyErrorJson
  ⟨m.workerId, m.type, m.name, m.data, errorJson⟩

/-- The argument of `WorkerMessage.create`: a `WorkerMessageContent`
record, whose `error` field may be absent (`undefined`). -/
structure WorkerMessageContent where
  workerId : Nat
  type : String
  name : String
  data : Option JValue
  error : Option ErrorJson
deriving DecidableEq, Repr

/-- `WorkerMessage.create`: `if (error)` is true exactly when the field
is present (every JS object, including `{}`, is truthy), and then the
normalized `{message, stack, name, ...rest}` object is rebuilt. -/
def WorkerMessage.create (content : WorkerMessageContent) : WorkerMessage :=
  let errorJson : Option ErrorJson :=
    match content.error with
    | some e => some ⟨e.name, e.message, e.stack, e.rest⟩
    | none => none
  ⟨content.workerId, content.type, content.name, content.data, errorJson⟩

/-- Feeding the flat record of `toJson` back to `WorkerMessage.create`:
the `error` field of the record is an ever-present object, hence truthy. -/
def decodeMessageJson (mj : MessageJson) : WorkerMessage :=
  WorkerMessage.create ⟨mj.workerId, mj.type, mj.name, mj.data, some mj.error⟩

/-! ## The worker unit (`worker.ts`) -/

/-- The mutable state of a `Worker` instance: the `isRejected` flag
(initially `false`). -/
structure WorkerUnit where
  isRejected : Bool
deriving DecidableEq, Repr

/-- A call on the worker unit. -/
inductive WOp where
  | resolve : Option JValue → WOp
  | reject : Option ErrorJson → WOp
  | progress : Option JValue → WOp
deriving DecidableEq, Repr

/-- Whether a call is a `reject`. -/
def WOp.isReject : WOp → Bool
  | .reject _ => true
  | _ => false

/-- One call on a `Worker` (`worker.ts`): the next state, the list of
records posted to `parentPort` by the call, and the JS return value
(`none` is `undefined` — `resolve` falls off the end of the function
when `isRejected` is set). -/
def workerStep (threadId : Nat) (w : WorkerUnit) : WOp → WorkerUnit × List MessageJson × Option String
  | .resolve d =>
    if w.isRejected = false then
      (w, [(WorkerMessage.taskResolved threadId d).toJson], some "task_resolved")
    else
      (w, [], none)
  | .reject e =>
    (⟨true⟩, [(WorkerMessage.taskRejected threadId e).toJson], some "task_rejected")
  | .progress d =>
    (w, [(WorkerMessage.taskProgress threadId d).toJson], some "task_progress")

/-- Run a sequence of calls from a given state, collecting every posted
record in order. -/
def runWorker (threadId : Nat) (w : WorkerUnit) : List WOp → WorkerUnit × List MessageJson
  | [] => (w, [])
  | op :: rest =>
    let s := workerStep threadId w op
    let r := runWorker threadId s.1 rest
    (r.1, s.2.1 ++ r.2)

/-! ## The worker pool (`worker-pool.ts`) -/

/-- A `WorkerProxy` as the pool sees it: its `id` (the id of the worker
id, distinct per live thread). -/
structure WorkerProxy where
  id : Nat
deriving DecidableEq, Repr

/-- JS `Map.get` on an insertion-ordered association list. -/
def mapGet : List (Nat × WorkerProxy) → Nat → Option WorkerProxy
  | [], _ => none
  | p :: rest, k => if p.1 = k then some p.2 else mapGet rest k

/-- JS `Map.set`: overwrite in place, otherwise append. -/
def mapSet : List (Nat × WorkerProxy) → Nat → WorkerProxy → List (Nat × WorkerProxy)
  | [], k, v => [(k, v)]
  | p :: rest, k, v => if p.1 = k then (k, v) :: rest else p :: mapSet rest k v

/-- JS `Map.delete`: remove the entry with the key, keep the order. -/
def mapDelete : List (Nat × WorkerProxy) → Nat → List (Nat × WorkerProxy)
  | [], _ => []
  | p :: rest, k => if p.1 = k then rest else p :: mapDelete rest k

/-- The keys of the map, in order. -/
def mapKeys (m : List (Nat × WorkerProxy)) : List Nat :=
  m.map Prod.fst

/-- The pool state: `workerMaxCount`, the `availableWorkers` list and
the `activeWorkersByPid` map of `WorkerPool`. -/
structure PoolState where
  workerMaxCount : Nat
  availableWorkers : List WorkerProxy
  activeWorkersByPid : List (Nat × WorkerProxy)
deriving DecidableEq, Repr

/-- The outcome of `getWorker`: the new state, the JS return value
(`none` is `null`), and the `load` invocations performed —
`(worker id, pointer)` pairs. -/
structure GetResult where
  state : PoolState
  worker : Option WorkerProxy
  loads : List (Nat × Option String)
deriving DecidableEq, Repr

/-- `WorkerPool.getWorker(pointer)`: when the busy map is below the
ceiling, shift the idle list; a shifted proxy is put in the busy map
under its id and `load(pointer)` is awaited on it; otherwise `null`. -/
def getWorker (s : PoolState) (pointer : Option String) : GetResult :=
  if s.activeWorkersByPid.length < s.workerMaxCount then
    match s.availableWorkers with
    | [] => ⟨s, none, []⟩
    | w :: rest =>
      ⟨⟨s.workerMaxCount, rest, mapSet s.activeWorkersByPid w.id w⟩, some w, [(w.id, pointer)]⟩
  else
    ⟨s, none, []⟩

/-- The outcome of `releaseWorker`: the new state, the proxies disposed
(by id), the release-handler invocations `(id, data)`, and whether the
not-found branch logged. -/
structure ReleaseResult where
  state : PoolState
  disposed : List Nat
  handlerCalls : List (Nat × Option JValue)
  loggedNotFound : Bool
deriving DecidableEq, Repr

/-- `WorkerPool.releaseWorker(id, data)`: look the id up in the busy
map; when found, dispose the proxy, delete it from the map, push it
back on the idle list when that list is shorter than the ceiling, and
call the registered release handler when there is one; otherwise only
log. -/
def releaseWorker (hasHandler : Bool) (s : PoolState) (id : Nat) (data : Option JValue) :
    ReleaseResult :=
  match mapGet s.activeWorkersByPid id with
  | some w =>
    let active := mapDelete s.activeWorkersByPid id
    let avail :=
      if s.availableWorkers.length < s.workerMaxCount then
        s.availableWorkers ++ [w]
      else
        s.availableWorkers
    ⟨⟨s.workerMaxCount, avail, active⟩, [id], if hasHandler then [(id, data)] else [], false⟩
  | none => ⟨s, [], [], true⟩

/-- Iterate `getWorker` (discarding the returned proxies). -/
def getWorkerIter (pointer : Option String) : Nat → PoolState → PoolState
  | 0, s => s
  | n + 1, s => getWorkerIter pointer n (getWorker s pointer).state

/-- The state `WorkerPool.setup` leaves behind: `workerMaxCount`
proxies on the idle list, an empty busy map.  Thread ids of live
workers are distinct, hence the `Nodup`. -/
def SetupState (s : PoolState) : Prop :=
  s.activeWorkersByPid = [] ∧
  s.availableWorkers.length = s.workerMaxCount ∧
  (s.availableWorkers.map WorkerProxy.id).Nodup

/-- Every id the pool holds, idle list first, then busy keys. -/
def allIds (s : PoolState) : List Nat :=
  s.availableWorkers.map WorkerProxy.id ++ mapKeys s.activeWorkersByPid

/-- The pool invariant: each busy key matches the id of its proxy, all held ids
are distinct, and idle + busy counts equal the ceiling. -/
def PoolInv (s : PoolState) : Prop :=
  (∀ p ∈ s.activeWorkersByPid, p.2.id = p.1) ∧
  (allIds s).Nodup ∧
  s.availableWorkers.length + s.activeWorkersByPid.length = s.workerMaxCount

/-- One pool call, as a step relation on states. -/
inductive PoolStep : PoolState → PoolState → Prop where
  | get (s : PoolState) (pointer : Option String) :
      PoolStep s (getWorker s pointer).state
  | release (s : PoolState) (hasHandler : Bool) (id : Nat) (data : Option JValue) :
      PoolStep s (releaseWorker hasHandler s id data).state

/-- States reachable by `getWorker`/`releaseWorker` calls. -/
def PoolReachable : PoolState → PoolState → Prop :=
  Relation.ReflTransGen PoolStep

/-! ## The worker loader (`worker-loader.ts`) -/

/-- JS falsiness of the `pointer: string` argument: absent
(`undefined`) or the empty string. -/
def strFalsy : Option String → Bool
  | none => true
  | some s => s.isEmpty

/-- The world `DefaultWorkerLoader.load` consults: `buildPath` from
`worker-loader.utils.ts`, `existsSync`, and the default export
`require(filePath).default` of an existing file (modelled as present
whenever the file exists, which every loadable worker module
satisfies).  Worker classes are their identifiers. -/
structure LoaderEnv where
  buildPath : String → String
  fileExists : String → Bool
  requireDefault : String → String

/-- How `load` failed. -/
inductive LoadError where
  | undefinedPointer : LoadError
  | workerNotFound : String → LoadError
deriving DecidableEq, Repr

/-- The message carried by a `LoadError`, from
`worker-loader.errors.ts` and the inline `throw` of `load`. -/
def loadErrorMessage : LoadError → String
  | .undefinedPointer =>
    "Undefined pointer. The worker loader does not know which Worker class to initialize."
  | .workerNotFound pointer =>
    "A valid path to a worker was not specified or a worker was not assigned to the given name "
      ++ pointer

/-- A constructed worker instance: the class it was constructed from
and the constructor arguments. -/
structure WorkerInstance where
  cls : String
  args : Option JValue
deriving DecidableEq, Repr

/-- `DefaultWorkerLoader.load(pointer, workerConstructorArgs)`:
falsy pointer → `UndefinedPointerError`; else try the built file path,
then the bindings map, else throw naming the pointer; on success return
`new WorkerClass(workerConstructorArgs)`. -/
def DefaultWorkerLoader.load (env : LoaderEnv) (bindings : List (String × String))
    (pointer : Option String) (workerConstructorArgs : Option JValue) :
    Except LoadError WorkerInstance :=
  if strFalsy pointer then
    .error .undefinedPointer
  else
    let p := pointer.getD ""
    let filePath := env.buildPath p
    if env.fileExists filePath then
      .ok ⟨env.requireDefault filePath, workerConstructorArgs⟩
    else
      match bindings.lookup p with
      | some cls => .ok ⟨cls, workerConstructorArgs⟩
      | none => .error (.workerNotFound p)

/-! ## Map lemmas -/

theorem mapKeys_append (m₁ m₂ : List (Nat × WorkerProxy)) :
    mapKeys (m₁ ++ m₂) = mapKeys m₁ ++ mapKeys m₂ :=
  List.map_append _ _ _

theorem mapGet_eq_none_iff (m : List (Nat × WorkerProxy)) (k : Nat) :
    mapGet m k = none ↔ k ∉ mapKeys m := by
  induction m with
  | nil => simp [mapGet, mapKeys]
  | cons p rest ih =>
    by_cases h : p.1 = k
    · simp [mapGet, h, mapKeys]
    · simp [mapGet, h, mapKeys, ih, Ne.symm h]

theorem mapGet_mem {m : List (Nat × WorkerProxy)} {k : Nat} {w : WorkerProxy}
    (h : mapGet m k = some w) : (k, w) ∈ m := by
  induction m with
  | nil => simp [mapGet] at h
  | cons p rest ih =>
    by_cases hp : p.1 = k
    · simp [mapGet, hp] at h
      subst hp
      simp [← h]
    · simp [mapGet, hp] at h
      exact List.mem_cons_of_mem _ (ih h)

theorem mem_keys_of_mapGet_some {m : List (Nat × WorkerProxy)} {k : Nat} {w : WorkerProxy}
    (h : mapGet m k = some w) : k ∈ mapKeys m := by
  have := mapGet_mem h
  exact List.mem_map.mpr ⟨(k, w), this, rfl⟩

theorem mapSet_of_not_mem {m : List (Nat × WorkerProxy)} {k : Nat}
    (h : k ∉ mapKeys m) (v : WorkerProxy) : mapSet m k v = m ++ [(k, v)] := by
  induction m with
  | nil => rfl
  | cons p rest ih =>
    simp [mapKeys] at h
    simp [mapSet, Ne.symm h.1, ih (by simpa [mapKeys] using h.2)]

theorem mapGet_append_singleton_of_not_mem {m : List (Nat × WorkerProxy)} {k : Nat}
    (h : k ∉ mapKeys m) (v : WorkerProxy) : mapGet (m ++ [(k, v)]) k = some v := by
  induction m with
  | nil => simp [mapGet]
  | cons p rest ih =>
    simp [mapKeys] at h
    simp [mapGet, Ne.symm h.1, ih (by simpa [mapKeys] using h.2)]

theorem mapDelete_append_singleton_of_not_mem {m : List (Nat × WorkerProxy)} {k : Nat}
    (h : k ∉ mapKeys m) (v : WorkerProxy) : mapDelete (m ++ [(k, v)]) k = m := by
  induction m with
  | nil => simp [mapDelete]
  | cons p rest ih =>
    simp [mapKeys] at h
    simp [mapDelete, Ne.symm h.1, ih (by simpa [mapKeys] using h.2)]

theorem perm_keys_delete {m : List (Nat × WorkerProxy)} {k : Nat} {w : WorkerProxy}
    (h : mapGet m k = some w) :
    (mapKeys m).Perm (k :: mapKeys (mapDelete m k)) := by
  induction m with
  | nil => simp [mapGet] at h
  | cons p rest ih =>
    by_cases hp : p.1 = k
    · simp [mapGet, hp] at h
      simp [mapDelete, hp, mapKeys]
    · simp [mapGet, hp] at h
      have h1 := (ih h).cons p.1
      have h2 := List.Perm.swap k p.1 (mapKeys (mapDelete rest k))
      have h3 := h1.trans h2
      simpa [mapDelete, hp, mapKeys] using h3

theorem length_mapDelete_of_get {m : List (Nat × WorkerProxy)} {k : Nat} {w : WorkerProxy}
    (h : mapGet m k = some w) : (mapDelete m k).length + 1 = m.length := by
  have := (perm_keys_delete h).length_eq
  simpa [mapKeys] using this.symm

theorem mem_of_mem_mapDelete {m : List (Nat × WorkerProxy)} {k : Nat} {p : Nat × WorkerProxy}
    (h : p ∈ mapDelete m k) : p ∈ m := by
  induction m with
  | nil => simp [mapDelete] at h
  | cons q rest ih =>
    by_cases hq : q.1 = k
    · simp [mapDelete, hq] at h
      exact List.mem_cons_of_mem _ h
    · simp [mapDelete, hq] at h
      rcases h with h | h
      · simp [h]
      · exact List.mem_cons_of_mem _ (ih h)

/-! ## Pool invariant preservation -/

theorem setupState_inv {s : PoolState} (h : SetupState s) : PoolInv s := by
  obtain ⟨ha, hl, hn⟩ := h
  refine ⟨?_, ?_, ?_⟩
  · intro p hp
    rw [ha] at hp
    simp at hp
  · simp [allIds, ha, mapKeys, hn]
  · simp [ha, hl]

theorem getWorker_inv {s : PoolState} (pointer : Option String) (h : PoolInv s) :
    PoolInv (getWorker s pointer).state := by
  obtain ⟨hkeys, hnodup, hlen⟩ := h
  unfold getWorker
  by_cases hc : s.activeWorkersByPid.length < s.workerMaxCount
  · cases he : s.availableWorkers with
    | nil => simpa [hc] using ⟨hkeys, hnodup, hlen⟩
    | cons w rest =>
      have hsplit : allIds s = w.id :: (rest.map WorkerProxy.id ++ mapKeys s.activeWorkersByPid) := by
        simp [allIds, he]
      rw [hsplit] at hnodup
      have hwid : w.id ∉ mapKeys s.activeWorkersByPid := by
        intro hmem
        exact (List.nodup_cons.mp hnodup).1 (List.mem_append.mpr (Or.inr hmem))
      simp only [hc, if_true]
      rw [mapSet_of_not_mem hwid w]
      refine ⟨?_, ?_, ?_⟩
      · intro p hp
        rcases List.mem_append.mp hp with hp | hp
        · exact hkeys p hp
        · simp at hp
          simp [hp]
      · show (rest.map WorkerProxy.id ++ mapKeys (s.activeWorkersByPid ++ [(w.id, w)])).Nodup
        rw [mapKeys_append]
        have : rest.map WorkerProxy.id ++ (mapKeys s.activeWorkersByPid ++ mapKeys [(w.id, w)]) =
            (rest.map WorkerProxy.id ++ mapKeys s.activeWorkersByPid) ++ w.id :: [] := by
          simp [mapKeys]
        rw [this]
        rw [List.nodup_middle]
        simpa using hnodup
      · show rest.length + (s.activeWorkersByPid ++ [(w.id, w)]).length = s.workerMaxCount
        have : s.availableWorkers.length = rest.length + 1 := by simp [he]
        simp only [List.length_append, List.length_cons, List.length_nil]
        omega
  · simpa [hc] using ⟨hkeys, hnodup, hlen⟩

theorem releaseWorker_inv {s : PoolState} (hasHandler : Bool) (id : Nat) (data : Option JValue)
    (h : PoolInv s) : PoolInv (releaseWorker hasHandler s id data).state := by
  obtain ⟨hkeys, hnodup, hlen⟩ := h
  unfold releaseWorker
  cases hg : mapGet s.activeWorkersByPid id with
  | none => simpa using ⟨hkeys, hnodup, hlen⟩
  | some w =>
    have hmemk : id ∈ mapKeys s.activeWorkersByPid := mem_keys_of_mapGet_some hg
    have hbusy : 1 ≤ s.activeWorkersByPid.length := by
      cases hm : s.activeWorkersByPid with
      | nil => rw [hm] at hmemk; simp [mapKeys] at hmemk
      | cons q r => simp [hm]
    have hidle : s.availableWorkers.length < s.workerMaxCount := by omega
    simp only [hidle, if_true]
    have hwid : w.id = id := hkeys (id, w) (mapGet_mem hg)
    refine ⟨?_, ?_, ?_⟩
    · intro p hp
      exact hkeys p (mem_of_mem_mapDelete hp)
    · show ((s.availableWorkers ++ [w]).map WorkerProxy.id ++
        mapKeys (mapDelete s.activeWorkersByPid id)).Nodup
      have h2 : (allIds s).Perm
          (s.availableWorkers.map WorkerProxy.id ++
            (id :: mapKeys (mapDelete s.activeWorkersByPid id))) :=
        (perm_keys_delete hg).append_left _
      have hnd := h2.nodup_iff.mp hnodup
      simpa [hwid, List.map_append, List.append_assoc] using hnd
    · show (s.availableWorkers ++ [w]).length + (mapDelete s.activeWorkersByPid id).length =
        s.workerMaxCount
      have := length_mapDelete_of_get hg
      simp only [List.length_append, List.length_cons, List.length_nil]
      omega

theorem poolStep_inv {s s' : PoolState} (h : PoolInv s) (hstep : PoolStep s s') : PoolInv s' := by
  cases hstep with
  | get pointer => exact getWorker_inv pointer h
  | release hasHandler id data => exact releaseWorker_inv hasHandler id data h

theorem reachable_inv {s₀ s : PoolState} (h₀ : PoolInv s₀) (h : PoolReachable s₀ s) :
    PoolInv s := by
  induction h with
  | refl => exact h₀
  | tail _ hstep ih => exact poolStep_inv ih hstep

theorem runWorker_isRejected (tid : Nat) (w : WorkerUnit) (ops : List WOp) :
    (runWorker tid w ops).1.isRejected = (w.isRejected || ops.any WOp.isReject) := by
  induction ops generalizing w with
  | nil => simp [runWorker]
  | cons op rest ih =>
    cases op with
    | resolve d =>
      by_cases h : w.isRejected = false
      · simp [runWorker, workerStep, h, ih, WOp.isReject]
      · simp [runWorker, workerStep, h, ih, WOp.isReject]
    | reject e => simp [runWorker, workerStep, ih, WOp.isReject]
    | progress d => simp [runWorker, workerStep, ih, WOp.isReject]

/-- C1 (counterexample): the claim says that after `WorkerPool.setup`
with `threadsCount = 0` the ceiling equals hardware parallelism minus
`inviolableThreadsCount` (here `4 - 0 = 4`); the code takes the
else branch of the `threadsCount > inviolableThreadsCount` guard and sets
the ceiling to `0`. -/
theorem setup_ceiling_zero_counterexample :
    setupWorkerMaxCount 4 (.num 0) (.num 0) = .num 0 ∧
    JSNum.num 0 ≠ JSNum.sub (.num 4) (.num 0) := by
  decide

/-- C1 (amended): after `WorkerPool.setup`, `workerMaxCount` equals
`threadsCount` whenever `threadsCount` is a positive number; when
`threadsCount` is zero the parallelism-minus-reserved value is used
only if `inviolableThreadsCount` is negative, and otherwise the ceiling
is `0`; a `NaN` `threadsCount` yields `NaN`. -/
theorem setup_ceiling_characterization (cpus : Nat) (n k : Int) :
    (0 < n → setupWorkerMaxCount cpus (.num n) (.num k) = .num n) ∧
    (0 ≤ k → setupWorkerMaxCount cpus (.num 0) (.num k) = .num 0) ∧
    (k < 0 → setupWorkerMaxCount cpus (.num 0) (.num k) =
      JSNum.sub (.num (cpus : Int)) (.num k)) ∧
    setupWorkerMaxCount cpus .nan (.num k) = .nan := by
  refine ⟨?_, ?_, ?_, ?_⟩
  · intro hn
    by_cases hk : k < n
    · have hn0 : ¬ ((JSNum.num n) = .num 0) := by
        intro hc
        cases hc
        omega
      simp [setupWorkerMaxCount, getWorkersCount, JSNum.gt, JSNum.isNaN, hk, hn0]
    · simp [setupWorkerMaxCount, JSNum.gt, hk]
  · intro hk
    have : ¬ k < 0 := by omega
    simp [setupWorkerMaxCount, JSNum.gt, this]
  · intro hk
    simp [setupWorkerMaxCount, getWorkersCount, JSNum.gt, hk]
  · simp [setupWorkerMaxCount, JSNum.gt]

theorem setup_ceiling_characterization_witness :
    setupWorkerMaxCount 8 (.num 3) (.num 1) = .num 3 ∧
    setupWorkerMaxCount 8 (.num 0) (.num 1) = .num 0 ∧
    setupWorkerMaxCount 8 (.num 0) (.num (-1)) = JSNum.sub (.num (8 : Int)) (.num (-1)) :=
  ⟨(setup_ceiling_characterization 8 3 1).1 (by decide),
   (setup_ceiling_characterization 8 0 1).2.1 (by decide),
   (setup_ceiling_characterization 8 0 (-1)).2.2.1 (by decide)⟩

/-- C3 (counterexample): decoding the encoded `Setup` envelope (which
carries no error) does not reproduce the original: the decoded message
carries the empty error object where the original had none, because
`toJson` always emits an `error` object and the truthiness test in `create`
sees it as truthy. -/
theorem roundtrip_no_error_counterexample :
    decodeMessageJson (WorkerMessage.toJson (WorkerMessage.mkSetup 1)) ≠
      WorkerMessage.mkSetup 1 ∧
    (decodeMessageJson (WorkerMessage.toJson (WorkerMessage.mkSetup 1))).error =
      some emptyErrorJson ∧
    (WorkerMessage.mkSetup 1).error = none := by
  decide

/-- C3 (amended): decoding the encoded envelope reproduces `workerId`,
`type`, `name` and `data` exactly, and reproduces `error` whenever the
original carried one; when it carried none the decoded message carries
the empty error object instead of no error.  The serialized record
always contains an `error` field that is an object, the empty object
when the message has no error. -/
theorem message_roundtrip (m : WorkerMessage) :
    (decodeMessageJson m.toJson).workerId = m.workerId ∧
    (decodeMessageJson m.toJson).type = m.type ∧
    (decodeMessageJson m.toJson).name = m.name ∧
    (decodeMessageJson m.toJson).data = m.data ∧
    (decodeMessageJson m.toJson).error = some (m.error.getD emptyErrorJson) ∧
    m.toJson.error = m.error.getD emptyErrorJson := by
  cases m with
  | mk workerId type name data error =>
    cases error with
    | none =>
      simp [decodeMessageJson, WorkerMessage.toJson, WorkerMessage.create, emptyErrorJson]
    | some e =>
      cases e
      simp [decodeMessageJson, WorkerMessage.toJson, WorkerMessage.create]

/-- C4: over any call sequence on a `Worker`, `resolve` posts the
`TaskResolved` record exactly when no `reject` preceded it (so a
`resolve` after earlier `resolve`s still posts), while `reject` always
posts the `TaskRejected` record and sets the rejected flag, however
often it is called and whatever the state. -/
theorem worker_settle_once (tid : Nat) (pre : List WOp) (d : Option JValue)
    (e : Option ErrorJson) (w : WorkerUnit) :
    (workerStep tid (runWorker tid ⟨false⟩ pre).1 (.resolve d)).2.1 =
      (if pre.any WOp.isReject then [] else [(WorkerMessage.taskResolved tid d).toJson]) ∧
    (workerStep tid w (.reject e)).2.1 = [(WorkerMessage.taskRejected tid e).toJson] ∧
    (workerStep tid w (.reject e)).1.isRejected = true := by
  refine ⟨?_, rfl, rfl⟩
  have h := runWorker_isRejected tid ⟨false⟩ pre
  by_cases hp : pre.any WOp.isReject
  · simp [hp] at h
    simp [workerStep, h, hp]
  · simp [hp] at h
    simp [workerStep, h, hp]

/-- C9: calling `resolve` on a worker whose state came out of a
`reject` returns `undefined` (`none`), not the declared
`task_resolved` literal, and posts nothing; on a non-rejected worker
it returns the literal wrapped in `some`. -/
theorem resolve_after_reject_returns_undefined (w : WorkerUnit) (tid tid₂ : Nat)
    (e : Option ErrorJson) (d : Option JValue) :
    (workerStep tid w (.resolve d)).2.2 =
      (if w.isRejected then none else some "task_resolved") ∧
    (workerStep tid₂ (workerStep tid w (.reject e)).1 (.resolve d)).2.2 = none ∧
    (workerStep tid₂ (workerStep tid w (.reject e)).1 (.resolve d)).2.1 = [] := by
  refine ⟨?_, rfl, rfl⟩
  by_cases h : w.isRejected <;> simp [workerStep, h]

/-- C2: from the state `WorkerPool.setup` produces, every sequence of
`getWorker` and `releaseWorker` calls keeps
`availableWorkers.length + activeWorkersByPid.size` within
`workerMaxCount`, and no proxy id sits in the idle list and the busy
map at the same time. -/
theorem pool_accounting_invariant (s₀ s : PoolState) (h₀ : SetupState s₀)
    (hr : PoolReachable s₀ s) :
    s.availableWorkers.length + s.activeWorkersByPid.length ≤ s.workerMaxCount ∧
    ∀ id : Nat, ¬ (id ∈ s.availableWorkers.map WorkerProxy.id ∧
      id ∈ mapKeys s.activeWorkersByPid) := by
  obtain ⟨hkeys, hnodup, hlen⟩ := reachable_inv (setupState_inv h₀) hr
  constructor
  · omega
  · intro id hid
    have hnodup' : (s.availableWorkers.map WorkerProxy.id ++
        mapKeys s.activeWorkersByPid).Nodup := hnodup
    exact (List.nodup_append.mp hnodup').2.2 hid.1 hid.2

theorem pool_accounting_invariant_witness :
    (⟨2, [⟨1⟩, ⟨2⟩], []⟩ : PoolState).availableWorkers.length +
      (⟨2, [⟨1⟩, ⟨2⟩], []⟩ : PoolState).activeWorkersByPid.length ≤
      (⟨2, [⟨1⟩, ⟨2⟩], []⟩ : PoolState).workerMaxCount ∧
    ∀ id : Nat, ¬ (id ∈ (⟨2, [⟨1⟩, ⟨2⟩], []⟩ : PoolState).availableWorkers.map WorkerProxy.id ∧
      id ∈ mapKeys (⟨2, [⟨1⟩, ⟨2⟩], []⟩ : PoolState).activeWorkersByPid) :=
  pool_accounting_invariant ⟨2, [⟨1⟩, ⟨2⟩], []⟩ ⟨2, [⟨1⟩, ⟨2⟩], []⟩
    ⟨rfl, rfl, by decide⟩ Relation.ReflTransGen.refl

/-- C5: with the busy map at the ceiling, `getWorker` returns `null`,
performs no `load`, and leaves the state unchanged — and does so again
when repeated; the same `null` comes back below the ceiling when the
idle list is empty. -/
theorem getWorker_at_ceiling_null (s : PoolState) (pointer : Option String) :
    (s.activeWorkersByPid.length = s.workerMaxCount →
      getWorker s pointer = ⟨s, none, []⟩ ∧
      getWorker (getWorker s pointer).state pointer = ⟨s, none, []⟩) ∧
    (s.activeWorkersByPid.length < s.workerMaxCount → s.availableWorkers = [] →
      getWorker s pointer = ⟨s, none, []⟩) := by
  constructor
  · intro h
    have hc : ¬ s.activeWorkersByPid.length < s.workerMaxCount := by omega
    have h1 : getWorker s pointer = ⟨s, none, []⟩ := by simp [getWorker, hc]
    exact ⟨h1, by rw [h1]; exact h1⟩
  · intro hc he
    simp [getWorker, hc, he]

theorem getWorker_at_ceiling_null_witness :
    getWorker ⟨1, [], [(5, ⟨5⟩)]⟩ none = ⟨⟨1, [], [(5, ⟨5⟩)]⟩, none, []⟩ ∧
    getWorker ⟨2, [], [(5, ⟨5⟩)]⟩ none = ⟨⟨2, [], [(5, ⟨5⟩)]⟩, none, []⟩ :=
  ⟨((getWorker_at_ceiling_null ⟨1, [], [(5, ⟨5⟩)]⟩ none).1 (by decide)).1,
   (getWorker_at_ceiling_null ⟨2, [], [(5, ⟨5⟩)]⟩ none).2 (by decide) rfl⟩

/-- C7: `releaseWorker` on an id absent from the busy map leaves the
state exactly as it was, disposes nothing, calls no release handler
(whether or not one is registered), and only logs. -/
theorem release_unknown_id_noop (s : PoolState) (hasHandler : Bool) (id : Nat)
    (data : Option JValue) (h : mapGet s.activeWorkersByPid id = none) :
    releaseWorker hasHandler s id data = ⟨s, [], [], true⟩ := by
  simp [releaseWorker, h]

theorem release_unknown_id_noop_witness :
    releaseWorker true ⟨2, [⟨1⟩, ⟨2⟩], []⟩ 7 none = ⟨⟨2, [⟨1⟩, ⟨2⟩], []⟩, [], [], true⟩ :=
  release_unknown_id_noop ⟨2, [⟨1⟩, ⟨2⟩], []⟩ true 7 none (by decide)

/-- C10: the pool reuses idle proxies in FIFO order — a successful
`getWorker` hands out the head of the idle list and keeps its tail,
and `releaseWorker` on a busy id appends the proxy at the back. -/
theorem pool_fifo_order (s : PoolState) (pointer : Option String) :
    (∀ s' w loads, getWorker s pointer = ⟨s', some w, loads⟩ →
      s.availableWorkers.head? = some w ∧ s'.availableWorkers = s.availableWorkers.tail) ∧
    (∀ (hasHandler : Bool) (id : Nat) (data : Option JValue) (w : WorkerProxy),
      mapGet s.activeWorkersByPid id = some w →
      s.availableWorkers.length < s.workerMaxCount →
      (releaseWorker hasHandler s id data).state.availableWorkers =
        s.availableWorkers ++ [w]) := by
  constructor
  · intro s' w loads hg
    unfold getWorker at hg
    by_cases hc : s.activeWorkersByPid.length < s.workerMaxCount
    · cases he : s.availableWorkers with
      | nil => rw [he] at hg; simp [hc] at hg
      | cons w₀ rest =>
        rw [he] at hg
        simp only [hc, if_true] at hg
        cases hg
        simp [he]
    · simp [hc] at hg
  · intro hasHandler id data w hg hlt
    simp [releaseWorker, hg, hlt]

theorem pool_fifo_order_witness :
    (⟨1, [⟨3⟩, ⟨4⟩], []⟩ : PoolState).availableWorkers.head? = some ⟨3⟩ ∧
    (⟨1, [⟨4⟩], mapSet ([] : List (Nat × WorkerProxy)) 3 ⟨3⟩⟩ : PoolState).availableWorkers =
      (⟨1, [⟨3⟩, ⟨4⟩], []⟩ : PoolState).availableWorkers.tail :=
  (pool_fifo_order ⟨1, [⟨3⟩, ⟨4⟩], []⟩ none).1
    ⟨1, [⟨4⟩], mapSet ([] : List (Nat × WorkerProxy)) 3 ⟨3⟩⟩ ⟨3⟩ [(3, none)] (by decide)

/-- Loader environment used by the C8 witness: one worker file exists
at `/workers/present`, and one binding is registered under the label
`present-binding`. -/
def sampleLoaderEnv : LoaderEnv :=
  ⟨fun p => "/workers/" ++ p, fun path => path == "/workers/present", fun _ => "PresentWorker"⟩

/-- C8: `DefaultWorkerLoader.load` fails with the undefined-pointer
error on a falsy pointer; otherwise it resolves an existing file at the
built path first (even when a binding exists), falls back to the
bindings registry only when no file exists, and when neither resolves
it fails with the worker-not-found error whose message names the
pointer; on success it returns an instance constructed from the
resolved class and the given constructor arguments. -/
theorem loader_resolution_order (env : LoaderEnv) (bindings : List (String × String))
    (pointer : Option String) (args : Option JValue) :
    (strFalsy pointer = true →
      DefaultWorkerLoader.load env bindings pointer args = .error .undefinedPointer) ∧
    (strFalsy pointer = false →
      env.fileExists (env.buildPath (pointer.getD "")) = true →
      DefaultWorkerLoader.load env bindings pointer args =
        .ok ⟨env.requireDefault (env.buildPath (pointer.getD "")), args⟩) ∧
    (strFalsy pointer = false →
      env.fileExists (env.buildPath (pointer.getD "")) = false →
      ∀ cls, bindings.lookup (pointer.getD "") = some cls →
        DefaultWorkerLoader.load env bindings pointer args = .ok ⟨cls, args⟩) ∧
    (strFalsy pointer = false →
      env.fileExists (env.buildPath (pointer.getD "")) = false →
      bindings.lookup (pointer.getD "") = none →
      DefaultWorkerLoader.load env bindings pointer args =
        .error (.workerNotFound (pointer.getD "")) ∧
      loadErrorMessage (.workerNotFound (pointer.getD "")) =
        "A valid path to a worker was not specified or a worker was not assigned to the given name "
          ++ pointer.getD "") := by
  refine ⟨?_, ?_, ?_, ?_⟩
  · intro hf
    simp [DefaultWorkerLoader.load, hf]
  · intro hf hex
    simp [DefaultWorkerLoader.load, hf, hex]
  · intro hf hex cls hcls
    simp [DefaultWorkerLoader.load, hf, hex, hcls]
  · intro hf hex hcls
    exact ⟨by simp [DefaultWorkerLoader.load, hf, hex, hcls], rfl⟩

theorem loader_resolution_order_witness :
    DefaultWorkerLoader.load sampleLoaderEnv [("present-binding", "BoundWorker")]
      (some "missing-pointer") none = .error (.workerNotFound "missing-pointer") ∧
    DefaultWorkerLoader.load sampleLoaderEnv [("present-binding", "BoundWorker")]
      none none = .error .undefinedPointer ∧
    DefaultWorkerLoader.load sampleLoaderEnv [("present-binding", "BoundWorker")]
      (some "present") none = .ok ⟨"PresentWorker", none⟩ ∧
    DefaultWorkerLoader.load sampleLoaderEnv [("present-binding", "BoundWorker")]
      (some "present-binding") none = .ok ⟨"BoundWorker", none⟩ :=
  ⟨((loader_resolution_order sampleLoaderEnv [("present-binding", "BoundWorker")]
      (some "missing-pointer") none).2.2.2 (by decide) (by decide) (by decide)).1,
   (loader_resolution_order sampleLoaderEnv [("present-binding", "BoundWorker")]
      none none).1 (by decide),
   (loader_resolution_order sampleLoaderEnv [("present-binding", "BoundWorker")]
      (some "present") none).2.1 (by decide) (by decide),
   (loader_resolution_order sampleLoaderEnv [("present-binding", "BoundWorker")]
      (some "present-binding") none).2.2.1 (by decide) (by decide) "BoundWorker" (by decide)⟩

theorem getWorkerIter_drop (pointer : Option String) (k : Nat) :
    ∀ s : PoolState, PoolInv s → k ≤ s.availableWorkers.length →
    (getWorkerIter pointer k s).availableWorkers = s.availableWorkers.drop k ∧
    PoolInv (getWorkerIter pointer k s) ∧
    (getWorkerIter pointer k s).workerMaxCount = s.workerMaxCount := by
  induction k with
  | zero =>
    intro s hinv _
    exact ⟨by simp [getWorkerIter], by simpa [getWorkerIter] using hinv, by simp [getWorkerIter]⟩
  | succ n ih =>
    intro s hinv hk
    obtain ⟨hkeys, hnodup, hlen⟩ := hinv
    cases he : s.availableWorkers with
    | nil => rw [he] at hk; simp at hk
    | cons w rest =>
      have hc : s.activeWorkersByPid.length < s.workerMaxCount := by
        rw [he] at hlen
        simp at hlen
        omega
      have hstate : (getWorker s pointer).state =
          ⟨s.workerMaxCount, rest, mapSet s.activeWorkersByPid w.id w⟩ := by
        simp [getWorker, hc, he]
      have hinv' : PoolInv (⟨s.workerMaxCount, rest,
          mapSet s.activeWorkersByPid w.id w⟩ : PoolState) := by
        rw [← hstate]
        exact getWorker_inv pointer ⟨hkeys, hnodup, hlen⟩
      have hk' : n ≤ rest.length := by
        rw [he] at hk
        simpa using hk
      have heq : getWorkerIter pointer (n + 1) s =
          getWorkerIter pointer n ⟨s.workerMaxCount, rest, mapSet s.activeWorkersByPid w.id w⟩ := by
        simp [getWorkerIter, hstate]
      obtain ⟨hd, hi, hm⟩ := ih ⟨s.workerMaxCount, rest, mapSet s.activeWorkersByPid w.id w⟩ hinv' hk'
      rw [heq]
      refine ⟨?_, hi, hm⟩
      rw [hd]
      simp [he]

/-- C6: in any pool state reachable from setup, a successful
`getWorker` handing out the proxy `w` followed by `releaseWorker` on
`w.id` removes `w.id` from the busy map, restores the pre-acquire busy
count, appends `w` back onto the idle list, and a later `getWorker`
(after the earlier idle proxies are handed out) returns `w` again. -/
theorem acquire_release_roundtrip (s₀ s : PoolState) (h₀ : SetupState s₀)
    (hr : PoolReachable s₀ s) (pointer pointer₂ : Option String)
    (s₁ : PoolState) (w : WorkerProxy) (loads : List (Nat × Option String))
    (hasHandler : Bool) (data : Option JValue) (r : ReleaseResult)
    (hget : getWorker s pointer = ⟨s₁, some w, loads⟩)
    (hrel : releaseWorker hasHandler s₁ w.id data = r) :
    mapGet r.state.activeWorkersByPid w.id = none ∧
    r.state.activeWorkersByPid.length = s.activeWorkersByPid.length ∧
    r.state.availableWorkers = s₁.availableWorkers ++ [w] ∧
    ∃ n, (getWorker (getWorkerIter pointer₂ n r.state) pointer₂).worker = some w := by
  have hinv := reachable_inv (setupState_inv h₀) hr
  obtain ⟨hkeys, hnodup, hlen⟩ := hinv
  unfold getWorker at hget
  by_cases hc : s.activeWorkersByPid.length < s.workerMaxCount
  · cases he : s.availableWorkers with
    | nil =>
      rw [he] at hget
      simp [hc] at hget
    | cons w₀ rest =>
      rw [he] at hget
      simp only [hc, if_true] at hget
      cases hget
      have hwid : w.id ∉ mapKeys s.activeWorkersByPid := by
        have hsplit : allIds s =
            w.id :: (rest.map WorkerProxy.id ++ mapKeys s.activeWorkersByPid) := by
          simp [allIds, he]
        rw [hsplit] at hnodup
        intro hmem
        exact (List.nodup_cons.mp hnodup).1 (List.mem_append.mpr (Or.inr hmem))
      have hset : mapSet s.activeWorkersByPid w.id w =
          s.activeWorkersByPid ++ [(w.id, w)] := mapSet_of_not_mem hwid w
      have hbusy₁ : (mapSet s.activeWorkersByPid w.id w).length =
          s.activeWorkersByPid.length + 1 := by simp [hset]
      have hidle₁ : rest.length < s.workerMaxCount := by
        rw [he] at hlen
        simp at hlen
        omega
      have hg₁ : mapGet (mapSet s.activeWorkersByPid w.id w) w.id = some w := by
        rw [hset]
        exact mapGet_append_singleton_of_not_mem hwid w
      have hdel : mapDelete (mapSet s.activeWorkersByPid w.id w) w.id =
          s.activeWorkersByPid := by
        rw [hset]
        exact mapDelete_append_singleton_of_not_mem hwid w
      have hrstate : r.state = ⟨s.workerMaxCount, rest ++ [w], s.activeWorkersByPid⟩ := by
        rw [← hrel]
        simp [releaseWorker, hg₁, hidle₁, hdel]
      refine ⟨?_, ?_, ?_, ?_⟩
      · rw [hrstate]
        exact (mapGet_eq_none_iff _ _).mpr hwid
      · rw [hrstate]
      · rw [hrstate]
      · have hinv₁ : PoolInv (⟨s.workerMaxCount, rest,
            mapSet s.activeWorkersByPid w.id w⟩ : PoolState) := by
          have := getWorker_inv pointer ⟨hkeys, hnodup, hlen⟩
          rw [show (getWorker s pointer).state = (⟨s.workerMaxCount, rest,
            mapSet s.activeWorkersByPid w.id w⟩ : PoolState) by simp [getWorker, hc, he]] at this
          exact this
        have hinvr : PoolInv r.state := by
          rw [← hrel]
          exact releaseWorker_inv hasHandler w.id data hinv₁
        refine ⟨rest.length, ?_⟩
        have hlenr : rest.length ≤ r.state.availableWorkers.length := by
          rw [hrstate]
          simp
        obtain ⟨hd, hi, hm⟩ := getWorkerIter_drop pointer₂ rest.length r.state hinvr hlenr
        have hd' : (getWorkerIter pointer₂ rest.length r.state).availableWorkers = [w] := by
          rw [hd, hrstate]
          simp
        obtain ⟨hkeys', hnodup', hlen'⟩ := hi
        have hc' : (getWorkerIter pointer₂ rest.length r.state).activeWorkersByPid.length <
            (getWorkerIter pointer₂ rest.length r.state).workerMaxCount := by
          rw [hd'] at hlen'
          simp at hlen'
          omega
        simp [getWorker, hc', hd']
  · simp [hc] at hget

theorem acquire_release_roundtrip_witness :
    mapGet (⟨⟨1, [⟨5⟩], []⟩, [5], [], false⟩ : ReleaseResult).state.activeWorkersByPid 5 = none ∧
    (⟨⟨1, [⟨5⟩], []⟩, [5], [], false⟩ : ReleaseResult).state.activeWorkersByPid.length =
      (⟨1, [⟨5⟩], []⟩ : PoolState).activeWorkersByPid.length ∧
    (⟨⟨1, [⟨5⟩], []⟩, [5], [], false⟩ : ReleaseResult).state.availableWorkers =
      (⟨1, [], [(5, ⟨5⟩)]⟩ : PoolState).availableWorkers ++ [⟨5⟩] ∧
    ∃ n, (getWorker (getWorkerIter none n
      (⟨⟨1, [⟨5⟩], []⟩, [5], [], false⟩ : ReleaseResult).state) none).worker = some ⟨5⟩ :=
  acquire_release_roundtrip ⟨1, [⟨5⟩], []⟩ ⟨1, [⟨5⟩], []⟩ ⟨rfl, rfl, by decide⟩
    Relation.ReflTransGen.refl none none ⟨1, [], [(5, ⟨5⟩)]⟩ ⟨5⟩ [(5, none)] false none
    ⟨⟨1, [⟨5⟩], []⟩, [5], [], false⟩ (by decide) (by decide)

end AwWorkers
